import Mathlib

/-!
Verification development for the claudeway gateway (TypeScript source under
review).  Each operation relevant to the frozen claims is shallowly embedded:
pure TypeScript functions become Lean functions on `String` / `List Char` /
`Int`, JSON values become the inductive `JVal`, and the stateful scheduler and
registries become explicit transition systems.  JSON numbers are modelled as
integers (the claims never depend on fractional values), and the platform
`JSON.parse` is kept abstract as a parameter `jp : String -> Option JVal`
because it is an external collaborator, not repository code.
-/

namespace Claudeway

/-- Substring containment, the model of the JavaScript `String.includes`. -/
def strContains (s pat : String) : Bool :=
  decide (pat.data <:+: s.data)

/-- JavaScript whitespace as used by `trim` and `trimStart`: ASCII blanks,
line terminators and the common Unicode blanks. -/
def isJsSpace (c : Char) : Bool :=
  c = ' ' || c = '\t' || c = '\n' || c = '\r' ||
  c = (Char.ofNat 0x0b) || c = (Char.ofNat 0x0c) ||
  c = (Char.ofNat 0xa0) || c = (Char.ofNat 0xfeff) ||
  c = (Char.ofNat 0x2028) || c = (Char.ofNat 0x2029)

/-- JavaScript line terminators (the characters excluded by `.` and matched
by `^` / `$` boundaries under the `m` flag). -/
def isLineTerm (c : Char) : Bool :=
  c = '\n' || c = '\r' || c = (Char.ofNat 0x2028) || c = (Char.ofNat 0x2029)

/-- Model of `line.trim()` being empty: every character is whitespace. -/
def allWhite (s : String) : Bool :=
  s.data.all isJsSpace

/-- JSON values.  Numbers are modelled as integers: no claim depends on
fractional or floating-point behaviour. -/
inductive JVal where
  | null : JVal
  | bool : Bool → JVal
  | num : Int → JVal
  | str : String → JVal
  | arr : List JVal → JVal
  | obj : List (String × JVal) → JVal

/-- Property access `v.f` on a JSON value: `some` when `v` is an object with
the field, `none` when the field is absent or `v` is not an object (in
JavaScript the access then yields `undefined`; on `null` it would throw, but
every access in `parseStreamLine` is either guarded by optional chaining or
wrapped in the catch-all `try`, so the observable outcome coincides). -/
def JVal.field : JVal → String → Option JVal
  | .obj kvs, f => kvs.lookup f
  | _, _ => none

/-- JavaScript truthiness of a JSON value. -/
def JVal.truthy : JVal → Bool
  | .null => false
  | .bool b => b
  | .num n => n ≠ 0
  | .str s => s ≠ ""
  | .arr _ => true
  | .obj _ => true

/-- An optional field is nullish (for `??` and the loose `!= null` check)
when it is absent (`undefined`) or JSON `null`. -/
def nullish : Option JVal → Bool
  | none => true
  | some .null => true
  | some _ => false

/-- The `a ?? b` operator on an optional field: keep the field when it is
neither absent nor null, otherwise fall back. -/
def coalesce (a : Option JVal) (b : JVal) : JVal :=
  match a with
  | some .null => b
  | some v => v
  | none => b

/-- Test `v.f === lit` for a string literal, as in the parser guards. -/
def fieldIs (v : JVal) (f lit : String) : Bool :=
  match v.field f with
  | some (.str s) => s = lit
  | _ => false

mutual

/-- JavaScript string conversion of a JSON value (used by the `+` model when
an operand is not a number). -/
def JVal.toStr : JVal → String
  | .null => "null"
  | .bool b => if b then "true" else "false"
  | .num n => toString n
  | .str s => s
  | .arr xs => String.intercalate "," (JVal.toStrList xs)
  | .obj _ => "[object Object]"

/-- Element-wise string conversion for arrays (null elements render empty,
as in the JavaScript array-to-string conversion). -/
def JVal.toStrList : List JVal → List String
  | [] => []
  | .null :: rest => "" :: JVal.toStrList rest
  | v :: rest => v.toStr :: JVal.toStrList rest

end

/-- JavaScript numeric coercion of the non-string primitives that can reach
the `+` in the token sum. -/
def JVal.toNum : JVal → Int
  | .null => 0
  | .bool b => if b then 1 else 0
  | .num n => n
  | _ => 0

/-- The JavaScript `+` on JSON values: string concatenation when either
operand converts to a string, numeric addition otherwise (arrays and objects
convert to strings). -/
def jsAdd (a b : JVal) : JVal :=
  match a, b with
  | .num x, .num y => .num (x + y)
  | _, _ =>
    let strLike : JVal → Bool := fun v =>
      match v with
      | .str _ => true
      | .arr _ => true
      | .obj _ => true
      | _ => false
    if strLike a || strLike b then .str (a.toStr ++ b.toStr)
    else .num (a.toNum + b.toNum)

/-- Typed events produced by `parseStreamLine` (source:
`src/claude.ts`, `StreamLineEvent`).  Field values are kept as JSON values,
exactly as the TypeScript copies them out of the parsed object. -/
inductive StreamLineEvent where
  | textDelta (text : JVal) : StreamLineEvent
  | result (text sessionId cost tokens : JVal) : StreamLineEvent
  | userReceipt : StreamLineEvent

/-- The guard of the text-delta branch: the envelope
`type = stream_event, event.type = content_block_delta,
event.delta.type = text_delta` with a truthy `event.delta.text`. -/
def deltaMatch (v : JVal) : Bool :=
  fieldIs v "type" "stream_event" &&
  (match v.field "event" with
   | some ev =>
     fieldIs ev "type" "content_block_delta" &&
     (match ev.field "delta" with
      | some d =>
        fieldIs d "type" "text_delta" &&
        (match d.field "text" with
         | some t => t.truthy
         | none => false)
      | none => false)
   | none => false)

/-- The text extracted by the text-delta branch. -/
def deltaText (v : JVal) : JVal :=
  match v.field "event" with
  | some ev =>
    match ev.field "delta" with
    | some d => (d.field "text").getD .null
    | none => .null
  | none => .null

/-- The token count of a result record:
`usage != null ? (usage.input_tokens ?? 0) + (usage.output_tokens ?? 0) : null`. -/
def resultTokens (v : JVal) : JVal :=
  match v.field "usage" with
  | none => .null
  | some .null => .null
  | some u =>
    jsAdd (coalesce (u.field "input_tokens") (.num 0))
          (coalesce (u.field "output_tokens") (.num 0))

/-- Embedding of `parseStreamLine` (source: `src/claude.ts` lines 175-212).
The platform `JSON.parse` is abstracted as `jp`; `jp line = none` models an
exception from `JSON.parse` (caught by the `try`, producing `null`). -/
def parseStreamLine (jp : String → Option JVal) (line : String) :
    Option StreamLineEvent :=
  if allWhite line then none
  else
    match jp line with
    | none => none
    | some obj =>
      if deltaMatch obj then some (.textDelta (deltaText obj))
      else if fieldIs obj "type" "result" then
        some (.result (coalesce (obj.field "result") (.str ""))
                      (coalesce (obj.field "session_id") .null)
                      (coalesce (obj.field "cost_usd")
                        (coalesce (obj.field "total_cost_usd") .null))
                      (resultTokens obj))
      else if fieldIs obj "type" "user" then some .userReceipt
      else none

/-! ### Session identity (C4): SHA-1, UUIDv5 and deriveSessionId

`deriveSessionId` calls `uuidv5(name, namespace)` from the `uuid` package,
which is RFC 4122 UUIDv5: the SHA-1 digest of the namespace bytes followed by
the UTF-8 name bytes, with the version and variant bits forced.  The whole
pipeline is embedded executably on `Nat` so the regression anchor can be
checked by kernel evaluation. -/

/-- Reduction modulo 2^32, the word size of SHA-1. -/
def m32 (n : Nat) : Nat := n % 4294967296

/-- Rotate a 32-bit word left by `k` bits. -/
def rotl32 (n k : Nat) : Nat :=
  m32 (n * 2 ^ k) ||| (n / 2 ^ (32 - k))

/-- The SHA-1 round function for round `i`. -/
def sha1F (i b c d : Nat) : Nat :=
  if i < 20 then (b &&& c) ||| ((b ^^^ 4294967295) &&& d)
  else if i < 40 then b ^^^ c ^^^ d
  else if i < 60 then (b &&& c) ||| (b &&& d) ||| (c &&& d)
  else b ^^^ c ^^^ d

/-- The SHA-1 round constant for round `i`. -/
def sha1K (i : Nat) : Nat :=
  if i < 20 then 0x5a827999
  else if i < 40 then 0x6ed9eba1
  else if i < 60 then 0x8f1bbcdc
  else 0xca62c1d6

/-- Message-schedule extension; the word list is kept newest-first. -/
def sha1Extend : Nat → List Nat → List Nat
  | 0, ws => ws
  | k + 1, ws =>
    let w := rotl32 ((ws.getD 2 0) ^^^ (ws.getD 7 0) ^^^ (ws.getD 13 0) ^^^ (ws.getD 15 0)) 1
    sha1Extend k (w :: ws)

/-- The 80 SHA-1 rounds over the extended schedule. -/
def sha1Rounds : List Nat → Nat → Nat × Nat × Nat × Nat × Nat → Nat × Nat × Nat × Nat × Nat
  | [], _, st => st
  | w :: rest, i, (a, b, c, d, e) =>
    let tmp := m32 (rotl32 a 5 + sha1F i b c d + e + sha1K i + w)
    sha1Rounds rest (i + 1) (tmp, a, rotl32 b 30, c, d)

/-- Big-endian grouping of bytes into 32-bit words. -/
def bytesToWords : List Nat → List Nat
  | a :: b :: c :: d :: rest => (((a * 256 + b) * 256 + c) * 256 + d) :: bytesToWords rest
  | _ => []

/-- Big-endian bytes of a 32-bit word. -/
def wordBytes (w : Nat) : List Nat :=
  [w / 16777216 % 256, w / 65536 % 256, w / 256 % 256, w % 256]

/-- SHA-1 padding: `0x80`, zeros to 56 mod 64, then the bit length in 8
big-endian bytes. -/
def sha1Pad (msg : List Nat) : List Nat :=
  let len := msg.length
  let bitLen := len * 8
  let zeros := (119 - len % 64) % 64
  msg ++ 0x80 :: List.replicate zeros 0 ++
    [bitLen / 2 ^ 56 % 256, bitLen / 2 ^ 48 % 256, bitLen / 2 ^ 40 % 256,
     bitLen / 2 ^ 32 % 256, bitLen / 2 ^ 24 % 256, bitLen / 2 ^ 16 % 256,
     bitLen / 2 ^ 8 % 256, bitLen % 256]

/-- Split into 64-byte chunks; the fuel argument (instantiated with the list
length, an upper bound on the chunk count) keeps the recursion structural so
that the kernel can evaluate it. -/
def chunks64 : Nat → List Nat → List (List Nat)
  | 0, _ => []
  | _, [] => []
  | fuel + 1, a :: l => (a :: l).take 64 :: chunks64 fuel ((a :: l).drop 64)

/-- One SHA-1 compression step. -/
def sha1Chunk (h : Nat × Nat × Nat × Nat × Nat) (chunk : List Nat) :
    Nat × Nat × Nat × Nat × Nat :=
  let ws := sha1Extend 64 (bytesToWords chunk).reverse
  let (h0, h1, h2, h3, h4) := h
  let (a, b, c, d, e) := sha1Rounds ws.reverse 0 (h0, h1, h2, h3, h4)
  (m32 (h0 + a), m32 (h1 + b), m32 (h2 + c), m32 (h3 + d), m32 (h4 + e))

/-- SHA-1 of a byte list, as a list of 20 bytes. -/
def sha1 (msg : List Nat) : List Nat :=
  let padded := sha1Pad msg
  let (h0, h1, h2, h3, h4) :=
    (chunks64 padded.length padded).foldl sha1Chunk
      (0x67452301, 0xEFCDAB89, 0x98BADCFE, 0x10325476, 0xC3D2E1F0)
  wordBytes h0 ++ wordBytes h1 ++ wordBytes h2 ++ wordBytes h3 ++ wordBytes h4

/-- UTF-8 encoding of one character. -/
def utf8Char (c : Char) : List Nat :=
  let n := c.toNat
  if n < 0x80 then [n]
  else if n < 0x800 then [0xc0 ||| (n / 64), 0x80 ||| (n &&& 0x3f)]
  else if n < 0x10000 then
    [0xe0 ||| (n / 4096), 0x80 ||| ((n / 64) &&& 0x3f), 0x80 ||| (n &&& 0x3f)]
  else
    [0xf0 ||| (n / 262144), 0x80 ||| ((n / 4096) &&& 0x3f),
     0x80 ||| ((n / 64) &&& 0x3f), 0x80 ||| (n &&& 0x3f)]

/-- UTF-8 encoding of a string. -/
def utf8Bytes (s : String) : List Nat :=
  s.data.foldr (fun c acc => utf8Char c ++ acc) []

/-- Value of a lowercase hexadecimal digit. -/
def hexVal (c : Char) : Nat :=
  if c.toNat ≤ 57 then c.toNat - 48 else c.toNat - 87

/-- Bytes from pairs of hexadecimal digits. -/
def hexPairs : List Char → List Nat
  | a :: b :: rest => (hexVal a * 16 + hexVal b) :: hexPairs rest
  | _ => []

/-- The 16 bytes of a UUID in canonical string form. -/
def uuidStrBytes (s : String) : List Nat :=
  hexPairs (s.data.filter (· ≠ '-'))

/-- Lowercase hexadecimal digit of a value below 16. -/
def hexDigit (n : Nat) : Char :=
  if n < 10 then Char.ofNat (48 + n) else Char.ofNat (87 + n)

/-- Lowercase hexadecimal rendering of a byte list. -/
def bytesHex (bs : List Nat) : List Char :=
  bs.foldr (fun b acc => hexDigit (b / 16) :: hexDigit (b % 16) :: acc) []

/-- RFC 4122 UUIDv5: SHA-1 of namespace bytes plus UTF-8 name bytes, with
the version nibble forced to 5 and the variant bits to 10, rendered in the
canonical 8-4-4-4-12 lowercase form.  Argument order matches the `uuid`
package: name first, then namespace. -/
def uuidv5 (name namespaceUuid : String) : String :=
  let digest := (sha1 (uuidStrBytes namespaceUuid ++ utf8Bytes name)).take 16
  let withVer := digest.set 6 (((digest.getD 6 0) &&& 0x0f) ||| 0x50)
  let bytes := withVer.set 8 (((withVer.getD 8 0) &&& 0x3f) ||| 0x80)
  let h := bytesHex bytes
  String.mk (h.take 8 ++ '-' :: (h.drop 8).take 4 ++ '-' :: (h.drop 12).take 4 ++
    '-' :: (h.drop 16).take 4 ++ '-' :: h.drop 20)

/-- The fixed namespace UUID (source: `src/claude.ts` line 32). -/
def CLAUDEWAY_NAMESPACE : String := "6ba7b810-9dad-11d1-80b4-00c04fd430c8"

/-- Embedding of `deriveSessionId` (source: `src/claude.ts` lines 153-155):
UUIDv5 of the name `channelId ++ ":" ++ folder` under the fixed namespace. -/
def deriveSessionId (channelId folder : String) : String :=
  uuidv5 (channelId ++ ":" ++ folder) CLAUDEWAY_NAMESPACE

/-! ### Durable message queue (C2, C8)

Source: `src/queue.ts`.  The queue directory is modelled as an association
list from filenames to records; `writeFileSync` overwrites the file with the
same name, `unlinkSync` removes it (throwing, hence returning `false`, when
it is absent). -/

/-- Replace the first occurrence of a character, the model of the JavaScript
`ts.replace(".", "-")` (a string pattern replaces only the first match). -/
def replaceFirstChar (a b : Char) : List Char → List Char
  | [] => []
  | c :: rest => if c = a then b :: rest else c :: replaceFirstChar a b rest

/-- Embedding of `messageFile` (source: `src/queue.ts` lines 20-23), without
the constant queue-directory part of the path. -/
def messageFileName (channelId ts : String) : String :=
  channelId ++ "_" ++ String.mk (replaceFirstChar '.' '-' ts.data) ++ ".json"

/-- A queued message record (source: `src/queue.ts`, `QueuedMessage`; the
optional image paths play no role in the claims). -/
structure QueuedMsg where
  channelId : String
  userId : String
  text : String
  ts : String
  threadTs : String
  queuedAt : String
deriving DecidableEq

/-- The queue directory: filenames paired with the records they hold. -/
abbrev QueueDir : Type := List (String × QueuedMsg)

/-- Embedding of `enqueue`: write the record to its derived filename,
overwriting any file of the same name. -/
def enqueueQ (m : QueuedMsg) (q : QueueDir) : QueueDir :=
  (messageFileName m.channelId m.ts, m) ::
    q.filter (fun kv => kv.1 ≠ messageFileName m.channelId m.ts)

/-- Embedding of `dequeue`: unlink the derived filename; the boolean reports
whether a file was actually removed. -/
def dequeueQ (channelId ts : String) (q : QueueDir) : Bool × QueueDir :=
  (q.any (fun kv => kv.1 = messageFileName channelId ts),
   q.filter (fun kv => kv.1 ≠ messageFileName channelId ts))

/-- Embedding of `updateQueuedText`: replace the text in place iff the file
still exists. -/
def updateQueuedTextQ (channelId ts newText : String) (q : QueueDir) :
    Bool × QueueDir :=
  let f := messageFileName channelId ts
  if q.any (fun kv => kv.1 = f) then
    (true, q.map (fun kv => if kv.1 = f then (kv.1, { kv.2 with text := newText }) else kv))
  else (false, q)

/-- The scheduler key for the processing set (source: `slack.ts`,
`processingKey`). -/
def processingKey (channelId ts : String) : String :=
  channelId ++ "_" ++ ts

/-- Scheduler state relevant to the deletion claim: the durable queue plus
the set of keys currently being processed. -/
structure SchedState where
  queue : QueueDir
  processing : List String

/-- The `message_deleted` branch of the Bolt message handler (source:
`slack.ts` `registerMessageHandler`): it calls `dequeue(msg.channel,
msg.deleted_ts)` unconditionally, without consulting `processingMessages`. -/
def onMessageDeleted (st : SchedState) (channel deletedTs : String) : SchedState :=
  { st with queue := (dequeueQ channel deletedTs st.queue).2 }

/-- The `message_changed` branch of the handler: update the queued text only
when the original ts is not currently processing. -/
def onMessageChanged (st : SchedState) (channel origTs newText : String) : SchedState :=
  if st.processing.contains (processingKey channel origTs) then st
  else { st with queue := (updateQueuedTextQ channel origTs newText st.queue).2 }

/-- Start of `processQueuedMessage`: the key is added to the processing set
while the file stays on disk. -/
def beginProcessing (st : SchedState) (channelId ts : String) : SchedState :=
  { st with processing := processingKey channelId ts :: st.processing }

/-- End of `processQueuedMessage` (success or error): dequeue the record and
leave the processing set. -/
def finishProcessing (st : SchedState) (channelId ts : String) : SchedState :=
  { queue := (dequeueQ channelId ts st.queue).2,
    processing := st.processing.filter (fun k => k ≠ processingKey channelId ts) }

/-! ### Message chunking (C10)

Source: `slack.ts`, `splitMessage` and `sendResponse`. -/

/-- Message-size limit for a single chat message. -/
def MAX_MESSAGE_LENGTH : Nat := 3900

/-- Length beyond which a response is delivered as a file upload. -/
def FILE_THRESHOLD : Nat := 12000

/-- The JavaScript `remaining.lastIndexOf(c, bound)`: the largest index not
exceeding `bound` holding the character, if any. -/
def lastIdxLe (cs : List Char) (c : Char) (bound : Nat) : Option Nat :=
  ((cs.take (bound + 1)).reverse.findIdx? (· = c)).map
    (fun j => (cs.take (bound + 1)).length - 1 - j)

/-- The loop of `splitMessage`.  The fuel argument (instantiated with the
input length plus one, an upper bound on the iteration count because every
iteration consumes at least half of `MAX_MESSAGE_LENGTH` characters) keeps
the recursion structural. -/
def splitChunks : Nat → List Char → List (List Char)
  | 0, _ => []
  | _, [] => []
  | fuel + 1, c :: rest =>
    if (c :: rest).length ≤ MAX_MESSAGE_LENGTH then [c :: rest]
    else
      let cut :=
        match lastIdxLe (c :: rest) '\n' MAX_MESSAGE_LENGTH with
        | none => MAX_MESSAGE_LENGTH
        | some i => if 2 * i < MAX_MESSAGE_LENGTH then MAX_MESSAGE_LENGTH else i
      (c :: rest).take cut ::
        splitChunks fuel (((c :: rest).drop cut).dropWhile isJsSpace)

/-- Embedding of `splitMessage` (source: `slack.ts` lines 336-352). -/
def splitMessage (s : String) : List String :=
  (splitChunks (s.data.length + 1) s.data).map String.mk

/-! ### Markup translator (C5)

Source: `slack.ts`, `markdownToSlackMrkdwn` and `convertMarkdownText`.  Each
JavaScript regex replacement is embedded as a character-list scanner that
follows the deterministic behaviour of the corresponding regex (greedy and
lazy quantifiers, multiline anchors, and the fact that `\s` also matches
line terminators while `.` and the `$` anchor do not cross them).  All
scanners carry a fuel argument, instantiated with an upper bound on the step
count, so that they stay structurally recursive and kernel-evaluable. -/

/-- The regex word class `\w`. -/
def isWordChar (c : Char) : Bool :=
  c.isAlphanum || c = '_'

/-- Body of a fenced block: the characters up to the first closing triple
backtick, with the remainder after it; `none` when the input holds no
closing fence (the lazy `[\s\S]*?` of the code-block regex). -/
def findTriple : List Char → Option (List Char × List Char)
  | '`' :: '`' :: '`' :: rest => some ([], rest)
  | c :: rest => (findTriple rest).map (fun p => (c :: p.1, p.2))
  | [] => none

/-- Match of the code-block regex ```` ```\w*\n[\s\S]*?``` ```` at the head
of the input: the language tag, the body, and the remainder.  The greedy
`\w*` needs no backtracking because a shorter tag would be followed by a
word character, never the required newline. -/
def fenceMatchAt (cs : List Char) : Option (List Char × List Char × List Char) :=
  match cs with
  | '`' :: '`' :: '`' :: rest =>
    let tag := rest.takeWhile isWordChar
    match rest.drop tag.length with
    | '\n' :: rest2 => (findTriple rest2).map (fun p => (tag, p.1, p.2))
    | _ => none
  | _ => none

/-- A segment of the input: plain text between fences, or one fenced code
block with its language tag. -/
inductive MdSeg where
  | gap (cs : List Char) : MdSeg
  | code (tag body : List Char) : MdSeg

/-- The `matchAll` loop of `markdownToSlackMrkdwn`: scan left to right,
emitting the text between matches and the matched code blocks.  The first
accumulator holds the pending gap reversed. -/
def scanFences : Nat → List Char → List Char → List MdSeg
  | _, acc, [] => if acc.isEmpty then [] else [MdSeg.gap acc.reverse]
  | 0, acc, cs => [MdSeg.gap (acc.reverse ++ cs)]
  | fuel + 1, acc, c :: rest =>
    match fenceMatchAt (c :: rest) with
    | some (tag, body, after) =>
      if acc.isEmpty then MdSeg.code tag body :: scanFences fuel [] after
      else MdSeg.gap acc.reverse :: MdSeg.code tag body :: scanFences fuel [] after
    | none => scanFences fuel (c :: acc) rest

/-- `result.replace(/&/g, "&amp;")`. -/
def escAmp (cs : List Char) : List Char :=
  cs.foldr (fun c acc => if c = '&' then '&' :: 'a' :: 'm' :: 'p' :: ';' :: acc else c :: acc) []

/-- `result.replace(/</g, "&lt;")`. -/
def escLt (cs : List Char) : List Char :=
  cs.foldr (fun c acc => if c = '<' then '&' :: 'l' :: 't' :: ';' :: acc else c :: acc) []

/-- Match of the link regex `\[([^\]]+)\]\(([^)]+)\)` at the head of the
input: label, url and remainder. -/
def linkAt (cs : List Char) : Option (List Char × List Char × List Char) :=
  match cs with
  | '[' :: rest =>
    let label := rest.takeWhile (fun c => c ≠ ']')
    if label.isEmpty then none
    else
      match rest.drop label.length with
      | ']' :: '(' :: rest2 =>
        let url := rest2.takeWhile (fun c => c ≠ ')')
        if url.isEmpty then none
        else
          match rest2.drop url.length with
          | ')' :: rest3 => some (label, url, rest3)
          | _ => none
      | _ => none
  | _ => none

/-- `result.replace(/\[([^\]]+)\]\(([^)]+)\)/g, "<$2|$1>")`. -/
def linkPass : Nat → List Char → List Char
  | 0, cs => cs
  | _, [] => []
  | fuel + 1, c :: rest =>
    match linkAt (c :: rest) with
    | some (label, url, rest2) => '<' :: (url ++ '|' :: label ++ '>' :: linkPass fuel rest2)
    | none => c :: linkPass fuel rest

/-- Backtracking step shared by the heading regex when its greedy `\s+` has
run to the end of the string: the engine shortens the whitespace run to the
longest prefix whose following character is not a line terminator, and the
dot then captures from there (whitespace characters other than terminators
are valid `.` matches).  Returns the capture and the remainder. -/
def wsBacktrack (w : List Char) : Nat → Option (List Char × List Char)
  | 0 => none
  | j + 1 =>
    if !isLineTerm (w.getD (j + 1) '\n') then
      let tail := w.drop (j + 1)
      let cap := tail.takeWhile (fun c => !isLineTerm c)
      some (cap, tail.drop cap.length)
    else wsBacktrack w j

/-- Continuation of the heading regex `^#{1,6}\s+(.+)$` after its hashes:
the greedy `\s+` (which crosses newlines) followed by the capture. -/
def headingAfterHashes (cs : List Char) : Option (List Char × List Char) :=
  let w := cs.takeWhile isJsSpace
  if w.isEmpty then none
  else
    match cs.drop w.length with
    | x :: r =>
      let cap := (x :: r).takeWhile (fun c => !isLineTerm c)
      some (cap, (x :: r).drop cap.length)
    | [] => wsBacktrack w (w.length - 1)

/-- Match of the heading regex at a line start: seven or more hashes never
match (any shorter greedy choice is followed by another hash, not by the
required whitespace). -/
def headingMatchAt (cs : List Char) : Option (List Char × List Char) :=
  let hashes := cs.takeWhile (fun c => c = '#')
  if hashes.length = 0 || 6 < hashes.length then none
  else headingAfterHashes (cs.drop hashes.length)

/-- Generic driver for the three line-anchored replacements: at every `^`
position (the start, or just after a line terminator) try the match
function, which yields the replacement text, the line-start flag after the
match, and the remainder. -/
def lineStartPass (matchAt : List Char → Option (List Char × Bool × List Char)) :
    Nat → Bool → List Char → List Char
  | 0, _, cs => cs
  | _, _, [] => []
  | fuel + 1, atStart, c :: rest =>
    if atStart then
      match matchAt (c :: rest) with
      | some (out, flag, rest2) => out ++ lineStartPass matchAt fuel flag rest2
      | none => c :: lineStartPass matchAt fuel (isLineTerm c) rest
    else c :: lineStartPass matchAt fuel (isLineTerm c) rest

/-- The heading replacement `^#{1,6}\s+(.+)$` to `*$1*`: the capture never
ends in a terminator, so the position after a match is never a line start. -/
def headingStep (cs : List Char) : Option (List Char × Bool × List Char) :=
  (headingMatchAt cs).map (fun p => ('*' :: p.1 ++ ['*'], false, p.2))

/-- Lazy search for the closing pair of `/\*\*(.+?)\*\*/` (and the `~~`
variant): the earliest double delimiter after at least one captured
character closes the match; `.` does not cross line terminators. -/
def pairEnd (d : Char) : Nat → Bool → List Char → Option (List Char × List Char)
  | 0, _, _ => none
  | fuel + 1, seen, cs =>
    match cs with
    | a :: b :: rest =>
      if seen && a = d && b = d then some ([], rest)
      else if isLineTerm a then none
      else (pairEnd d fuel true (b :: rest)).map (fun p => (a :: p.1, p.2))
    | _ => none

/-- `result.replace(/\*\*(.+?)\*\*/g, "*$1*")` and its `~~` to `~`
counterpart, parameterised by the delimiter character and the single output
delimiter. -/
def pairPass (d out : Char) : Nat → List Char → List Char
  | 0, cs => cs
  | _, [] => []
  | fuel + 1, a :: rest =>
    match
      (if a = d then
        match rest with
        | b :: rest2 => if b = d then pairEnd d (rest2.length + 1) false rest2 else none
        | [] => none
      else none) with
    | some (content, rest3) => out :: (content ++ out :: pairPass d out fuel rest3)
    | none => a :: pairPass d out fuel rest

/-- Largest index of a line terminator in the list, if any. -/
def lastTermIdx (w : List Char) : Option Nat :=
  (w.reverse.findIdx? isLineTerm).map (fun k => w.length - 1 - k)

/-- Match of the horizontal-rule regex `^(?:[-*_]){3,}\s*$` at a line start:
three or more rule characters, then the greedy `\s*`, with `$` placed at the
end of the string or just before the last terminator the whitespace run can
reach.  Returns the line-start flag after the match and the remainder. -/
def hrMatchAt (cs : List Char) : Option (Bool × List Char) :=
  let run := cs.takeWhile (fun c => c = '-' || c = '*' || c = '_')
  if run.length < 3 then none
  else
    let w := (cs.drop run.length).takeWhile isJsSpace
    match cs.drop (run.length + w.length) with
    | [] => some (false, [])
    | x :: r =>
      match lastTermIdx w with
      | some j =>
        some (if j = 0 then false else isLineTerm (w.getD (j - 1) ' '), w.drop j ++ x :: r)
      | none => none

/-- The horizontal-rule replacement: three em dashes. -/
def hrStep (cs : List Char) : Option (List Char × Bool × List Char) :=
  (hrMatchAt cs).map (fun p => (['—', '—', '—'], p.1, p.2))

/-- Match of the bullet regex `^[*-] (.+)$` at a line start. -/
def bulletMatchAt (cs : List Char) : Option (List Char × List Char) :=
  match cs with
  | m :: ' ' :: rest =>
    if m = '*' || m = '-' then
      let cap := rest.takeWhile (fun c => !isLineTerm c)
      if cap.isEmpty then none else some (cap, rest.drop cap.length)
    else none
  | _ => none

/-- The bullet replacement `^[*-] (.+)$` to a bullet glyph plus the capture. -/
def bulletStep (cs : List Char) : Option (List Char × Bool × List Char) :=
  (bulletMatchAt cs).map (fun p => ('•' :: ' ' :: p.1, false, p.2))

/-- Embedding of `convertMarkdownText` (source: `slack.ts` lines 127-155):
the eight replacements in source order. -/
def convertMarkdownChars (cs : List Char) : List Char :=
  let r1 := escAmp cs
  let r2 := escLt r1
  let r3 := linkPass (r2.length + 1) r2
  let r4 := lineStartPass headingStep (r3.length + 1) true r3
  let r5 := pairPass '*' '*' (r4.length + 1) r4
  let r6 := pairPass '~' '~' (r5.length + 1) r5
  let r7 := lineStartPass hrStep (r6.length + 1) true r6
  lineStartPass bulletStep (r7.length + 1) true r7

/-- Rendering of one segment: gaps are converted, fenced blocks only lose
the language tag on the opening fence (`match[0].replace(/^```\w+\n/,
"```\n")`, which is the identity when the tag is already empty). -/
def renderSeg : MdSeg → List Char
  | .gap g => convertMarkdownChars g
  | .code _ body => '`' :: '`' :: '`' :: '\n' :: (body ++ ['`', '`', '`'])

/-- Embedding of `markdownToSlackMrkdwn` (source: `slack.ts` lines
103-122). -/
def markdownToSlackMrkdwn (s : String) : String :=
  String.mk (((scanFences (s.data.length + 1) [] s.data).map renderSeg).flatten)

/-- The fenced blocks of an input, as the fence-splitting loop finds them:
the language tag and the byte-identical body of every closed fence. -/
def fencedBlocks (s : String) : List (List Char × List Char) :=
  (scanFences (s.data.length + 1) [] s.data).foldr
    (fun seg acc =>
      match seg with
      | .gap _ => acc
      | .code tag body => (tag, body) :: acc) []

/-! ### Oneshot run and the collision retry (C6)

Source: `src/claude.ts`, `buildClaudeArgs`, `makeFreshArgs` and `runClaude`.
The filesystem facts consulted by `buildClaudeArgs` (`existsSync` on the
session log and on `mcp.json`) and the process outcomes are parameters; the
outcome of the k-th spawned process is supplied by an oracle. -/

/-- Replace the first occurrence of a substring, the model of the JavaScript
`systemPrompt.replace("CONFIG_PATH", configPath)` (string patterns replace
only the first match). -/
def replaceFirstSub : Nat → List Char → List Char → List Char → List Char
  | 0, _, _, cs => cs
  | _, _, _, [] => []
  | fuel + 1, pat, rep, c :: rest =>
    if pat.isPrefixOf (c :: rest) then rep ++ (c :: rest).drop pat.length
    else c :: replaceFirstSub fuel pat rep rest

/-- String version of the first-occurrence replacement. -/
def replaceFirstStr (s pat rep : String) : String :=
  String.mk (replaceFirstSub (s.data.length + 1) pat.data rep.data s.data)

/-- Embedding of `buildClaudeArgs` (source: `src/claude.ts` lines 461-503).
`resuming` stands for `existsSync` on the session log file and `mcpConfig`
for the optional `mcp.json` path. -/
def buildClaudeArgs (message cwd model systemPrompt channelId : String)
    (outputFormat : String) (configPath : String) (resuming : Bool)
    (mcpConfig : Option String) (imagePaths : List String) : List String :=
  let prompt := replaceFirstStr systemPrompt "CONFIG_PATH" configPath
  let sessionId := deriveSessionId channelId cwd
  let finalMessage :=
    if imagePaths.isEmpty then message
    else message ++ "\n\n[Attached image files — use your Read tool to view them]\n" ++
      String.intercalate "\n" imagePaths
  ["-p", "--output-format", outputFormat] ++
    (if outputFormat = "stream-json" then ["--verbose", "--include-partial-messages"] else []) ++
    ["--model", model] ++
    (if resuming then ["--resume", sessionId] else ["--session-id", sessionId]) ++
    ["--append-system-prompt", prompt, "--dangerously-skip-permissions"] ++
    (match mcpConfig with
     | some p => ["--mcp-config", p]
     | none => []) ++
    [finalMessage]

/-- Embedding of `makeFreshArgs` (source: `src/claude.ts` lines 505-507):
every `--resume` whose following argument is the session id becomes
`--session-id`, all other arguments are kept. -/
def makeFreshArgs : List String → String → List String
  | [], _ => []
  | [a], _ => [a]
  | a :: b :: rest, sessionId =>
    (if a = "--resume" && b = sessionId then "--session-id" else a) ::
      makeFreshArgs (b :: rest) sessionId

/-- The payload of a resolved oneshot run (source: `ClaudeResult`). -/
structure ClaudeResultM where
  response : String
  sessionId : Option String
  cost : Option Int
  tokens : Option Int
deriving DecidableEq

/-- Decidable equality for `Except`, for concrete evaluation of run logs. -/
instance instDecEqExceptM {ε α : Type} [DecidableEq ε] [DecidableEq α] :
    DecidableEq (Except ε α) := fun a b =>
  match a, b with
  | .ok x, .ok y =>
    if h : x = y then isTrue (by rw [h]) else isFalse (by intro hh; cases hh; exact h rfl)
  | .ok _, .error _ => isFalse (by intro hh; cases hh)
  | .error _, .ok _ => isFalse (by intro hh; cases hh)
  | .error x, .error y =>
    if h : x = y then isTrue (by rw [h]) else isFalse (by intro hh; cases hh; exact h rfl)

/-- Observable record of one `runClaude` call: the argument lists of the
spawned processes in order, whether the session artifacts were cleared, and
the final outcome (`Except.error` models a rejected promise). -/
structure RunLog where
  attempts : List (List String)
  cleared : Bool
  outcome : Except String ClaudeResultM
deriving DecidableEq

/-- Embedding of the retry driver of `runClaude` (source: `src/claude.ts`
lines 509-541): the first spawn uses the built arguments; an error whose
message contains "already in use" clears the session artifacts and retries
exactly once with `makeFreshArgs`; any other error, and any error of the
retry, propagates.  `oracle k` is the outcome of the k-th spawned process. -/
def runClaudeRetry (oracle : Nat → Except String ClaudeResultM)
    (args : List String) (sessionId : String) : RunLog :=
  match oracle 0 with
  | .ok r => { attempts := [args], cleared := false, outcome := .ok r }
  | .error msg =>
    if strContains msg "already in use" then
      match oracle 1 with
      | .ok r =>
        { attempts := [args, makeFreshArgs args sessionId], cleared := true, outcome := .ok r }
      | .error e2 =>
        { attempts := [args, makeFreshArgs args sessionId], cleared := true,
          outcome := .error e2 }
    else { attempts := [args], cleared := false, outcome := .error msg }

/-! ### Global process slots and the two registries (C1)

Source: `slack.ts` (`acquireProcessSlot`, `releaseProcessSlot`,
`processQueuedMessage`) and `src/claude.ts` (the two registries).  The event
loop is modelled as a transition system.  Each field counts logical tasks or
registry entries:

* `active` — the `activeProcesses` counter itself;
* `waiters` — resolvers parked in `concurrencyWaiters`;
* `handoff` — waiters already resumed by `releaseProcessSlot` (the counter
  was decremented for them) that have not yet executed their own
  `activeProcesses++`: this is exactly the release-to-increment window named
  by the claim;
* `hIdle` — turns holding a slot with no child process currently spawned;
* `hRun` — turns holding a slot with a live oneshot child, i.e. entries of
  the oneshot `processRegistry`;
* `persRun` — turns holding a slot inside a persistent-mode exchange;
* `persistentLive` — entries of `persistentRegistry`, which survive the end
  of their turn until the process exits or the idle timeout fires.

The guard `handoff = 0` on the two acquire transitions encodes the event
loop: a resumed waiter continuation is a microtask queued by the release,
while every call of `acquireProcessSlot` sits behind an `await` of a fresh
chat-API promise and therefore runs in a later macrotask, after all pending
microtasks (including the waiter increment) have drained. -/

/-- Global cap on concurrently processing turns (source: `slack.ts` line
317). -/
def MAX_CONCURRENT_PROCESSES : Nat := 8

/-- State of the slot counter and the two registries. -/
structure SlotState where
  active : Nat
  waiters : Nat
  handoff : Nat
  hIdle : Nat
  hRun : Nat
  persRun : Nat
  persistentLive : Nat
deriving DecidableEq, Repr

/-- One atomic step of the scheduler and supervisor, between event-loop
suspension points. -/
inductive SlotStep : SlotState → SlotState → Prop where
  | acquireFast (s : SlotState) (hh : s.handoff = 0)
      (hc : s.active < MAX_CONCURRENT_PROCESSES) :
      SlotStep s { s with active := s.active + 1, hIdle := s.hIdle + 1 }
  | acquireWait (s : SlotState) (hh : s.handoff = 0)
      (hc : MAX_CONCURRENT_PROCESSES ≤ s.active) :
      SlotStep s { s with waiters := s.waiters + 1 }
  | releasePass (s : SlotState) (h1 : 1 ≤ s.hIdle) (h2 : 1 ≤ s.waiters) :
      SlotStep s { s with active := s.active - 1, hIdle := s.hIdle - 1,
                          waiters := s.waiters - 1, handoff := s.handoff + 1 }
  | releaseFree (s : SlotState) (h1 : 1 ≤ s.hIdle) (h2 : s.waiters = 0) :
      SlotStep s { s with active := s.active - 1, hIdle := s.hIdle - 1 }
  | resumeWaiter (s : SlotState) (h : 1 ≤ s.handoff) :
      SlotStep s { s with handoff := s.handoff - 1, active := s.active + 1,
                          hIdle := s.hIdle + 1 }
  | oneshotSpawn (s : SlotState) (h : 1 ≤ s.hIdle) :
      SlotStep s { s with hIdle := s.hIdle - 1, hRun := s.hRun + 1 }
  | oneshotClose (s : SlotState) (h : 1 ≤ s.hRun) :
      SlotStep s { s with hRun := s.hRun - 1, hIdle := s.hIdle + 1 }
  | persTurnNew (s : SlotState) (h : 1 ≤ s.hIdle) :
      SlotStep s { s with hIdle := s.hIdle - 1, persRun := s.persRun + 1,
                          persistentLive := s.persistentLive + 1 }
  | persTurnReuse (s : SlotState) (h : 1 ≤ s.hIdle) (hp : 1 ≤ s.persistentLive) :
      SlotStep s { s with hIdle := s.hIdle - 1, persRun := s.persRun + 1 }
  | persTurnEnd (s : SlotState) (h : 1 ≤ s.persRun) :
      SlotStep s { s with persRun := s.persRun - 1, hIdle := s.hIdle + 1 }
  | persClose (s : SlotState) (h : 1 ≤ s.persistentLive) :
      SlotStep s { s with persistentLive := s.persistentLive - 1 }

/-- The initial state: no slots held, both registries empty. -/
def slotInit : SlotState :=
  { active := 0, waiters := 0, handoff := 0, hIdle := 0, hRun := 0,
    persRun := 0, persistentLive := 0 }

/-- Reachability of scheduler states from startup. -/
inductive SlotReach : SlotState → Prop where
  | init : SlotReach slotInit
  | step {s t : SlotState} : SlotReach s → SlotStep s t → SlotReach t

/-- The quantity the claim bounds: entries of the oneshot registry plus
entries of the persistent registry. -/
def registrySize (s : SlotState) : Nat :=
  s.hRun + s.persistentLive

/-! ### The oneshot registry entries (C9)

Source: `src/claude.ts`: `processRegistry.set` in `runClaudeProcess` (lines
237-246) and `runClaudeStreamingProcess` (lines 329-338),
`processRegistry.delete` in the close and error handlers, and
`getActiveProcesses` (lines 88-104).  No other statement touches the oneshot
registry entries. -/

/-- `message.substring(0, 80)`. -/
def take80 (s : String) : String :=
  String.mk (s.data.take 80)

/-- An entry of the oneshot `processRegistry` (without the process handle
and start time, which the claim does not constrain). -/
structure OneshotEntry where
  channelId : String
  sessionId : String
  message : String
  messageCount : Nat
  totalCost : Int
  totalTokens : Int
deriving DecidableEq

/-- The entry written at spawn by both oneshot runners: literal
`messageCount: 1, totalCost: 0, totalTokens: 0`. -/
def initialOneshotEntry (channelId sessionId message : String) : OneshotEntry :=
  { channelId := channelId, sessionId := sessionId, message := take80 message,
    messageCount := 1, totalCost := 0, totalTokens := 0 }

/-- The oneshot registry, keyed by channel id. -/
abbrev OneshotRegistry : Type := List (String × OneshotEntry)

/-- `processRegistry.set` (overwrites the key). -/
def registrySet (k : String) (v : OneshotEntry) (r : OneshotRegistry) : OneshotRegistry :=
  (k, v) :: r.filter (fun kv => kv.1 ≠ k)

/-- `processRegistry.delete`. -/
def registryDelete (k : String) (r : OneshotRegistry) : OneshotRegistry :=
  r.filter (fun kv => kv.1 ≠ k)

/-- Every mutation of the oneshot registry in the source: the spawn-time
`set` with the literal initial counters, and the `delete` in the close and
error handlers. -/
inductive RegStep : OneshotRegistry → OneshotRegistry → Prop where
  | spawn (r : OneshotRegistry) (ch sess msg : String) :
      RegStep r (registrySet ch (initialOneshotEntry ch sess msg) r)
  | close (r : OneshotRegistry) (ch : String) :
      RegStep r (registryDelete ch r)

/-- Reachability of oneshot registry contents from the empty registry. -/
inductive RegReach : OneshotRegistry → Prop where
  | init : RegReach []
  | step {r t : OneshotRegistry} : RegReach r → RegStep r t → RegReach t

/-- One row of the `getActiveProcesses` snapshot. -/
structure ProcessInfo where
  channelId : String
  sessionId : String
  message : String
  messageCount : Nat
  totalCost : Int
  totalTokens : Int
  isActive : Bool
deriving DecidableEq

/-- An entry of the persistent registry, reduced to the fields that
`getActiveProcesses` reads; `currentTurnBusy` models `currentTurn !== null`. -/
structure PersistentEntryM where
  channelId : String
  sessionId : String
  lastMessage : String
  messageCount : Nat
  totalCost : Int
  totalTokens : Int
  currentTurnBusy : Bool
deriving DecidableEq

/-- Embedding of `getActiveProcesses`: oneshot entries are reported with
`isActive: true`, persistent entries with `isActive: currentTurn !== null`. -/
def getActiveProcesses (r : OneshotRegistry) (p : List PersistentEntryM) :
    List ProcessInfo :=
  r.map (fun kv =>
    { channelId := kv.2.channelId, sessionId := kv.2.sessionId,
      message := kv.2.message, messageCount := kv.2.messageCount,
      totalCost := kv.2.totalCost, totalTokens := kv.2.totalTokens,
      isActive := true }) ++
  p.map (fun e =>
    { channelId := e.channelId, sessionId := e.sessionId,
      message := e.lastMessage, messageCount := e.messageCount,
      totalCost := e.totalCost, totalTokens := e.totalTokens,
      isActive := e.currentTurnBusy })

/-! ### Claim-side predicates

These definitions follow the wording of the specification (not the source);
the claim theorems compare them with the embedded code. -/

/-- Wording of the specification: the inner shape of a `stream_event`
envelope matches the `content_block_delta` / `text_delta` pattern with
non-empty text.  Non-empty is read as the truthiness test the parser
performs, which on strings is exactly non-emptiness. -/
def specDeltaShape (v : JVal) : Prop :=
  ∃ ev, v.field "event" = some ev ∧ fieldIs ev "type" "content_block_delta" = true ∧
    ∃ d, ev.field "delta" = some d ∧ fieldIs d "type" "text_delta" = true ∧
      ∃ t, d.field "text" = some t ∧ t.truthy = true

/-- Wording of the claim: the conditions under which `parseStreamLine`
returns null — a whitespace-only line, invalid JSON, an unknown top-level
type, or a `stream_event` whose inner shape does not match the text-delta
pattern. -/
def returnsNullSpec (jp : String → Option JVal) (L : String) : Prop :=
  allWhite L = true ∨ jp L = none ∨
    ∃ v, jp L = some v ∧
      ((fieldIs v "type" "stream_event" = false ∧ fieldIs v "type" "result" = false ∧
        fieldIs v "type" "user" = false) ∨
       (fieldIs v "type" "stream_event" = true ∧ ¬ specDeltaShape v))

/-- Wording of the claim for a usage summand: the field is a number, or it
is missing (absent or null) and counted as 0. -/
def numOrMissing (x : Option JVal) (n : Int) : Prop :=
  x = some (.num n) ∨ (nullish x = true ∧ n = 0)

/-- A concrete result record used to instantiate the result-event theorem. -/
def wResultObj : JVal :=
  .obj [("type", .str "result"),
        ("usage", .obj [("input_tokens", .num 3), ("output_tokens", .num 4)]),
        ("cost_usd", .num 1)]

/-! ## Theorems -/

set_option maxRecDepth 12000 in
/-- C4: `deriveSessionId` is the pure UUIDv5 of `channelId ++ ":" ++ folder`
under the namespace `6ba7b810-9dad-11d1-80b4-00c04fd430c8`; determinism is
immediate because it is a function of its two arguments, and the regression
anchor evaluates to `808dcec8-994d-5b57-8aa6-c6beeaf1fd39`. -/
theorem deriveSessionId_uuidv5_and_anchor :
    (∀ channelId folder, deriveSessionId channelId folder =
      uuidv5 (channelId ++ ":" ++ folder) CLAUDEWAY_NAMESPACE) ∧
    deriveSessionId "C0AHAGEQY8Y" "/Users/tamas/dev/ktamas77/claudeway" =
      "808dcec8-994d-5b57-8aa6-c6beeaf1fd39" :=
  ⟨fun _ _ => rfl, by decide⟩

/-- C8 counterexample: the filename derivation is not injective on all
message keys.  `ts.replace(".", "-")` folds the distinct timestamps `1.2`
and `1-2` of the same channel onto one filename, so the two keys share a
file. -/
theorem messageFileName_not_injective :
    messageFileName "A" "1.2" = messageFileName "A" "1-2" ∧
    ("1.2" : String) ≠ "1-2" := by
  decide

theorem replaceFirstChar_cancel {t : List Char} (h : '-' ∉ t) :
    replaceFirstChar '-' '.' (replaceFirstChar '.' '-' t) = t := by
  induction t with
  | nil => rfl
  | cons c rest ih =>
    by_cases hc : c = '.'
    · subst hc
      simp [replaceFirstChar]
    · have hcd : c ≠ '-' := fun hh => h (by simp [hh])
      simp only [replaceFirstChar, if_neg hc, if_neg hcd]
      exact congrArg (c :: ·) (ih (fun hm => h (List.mem_cons_of_mem _ hm)))

theorem underscore_split {a₁ b₁ a₂ b₂ : List Char}
    (h₁ : '_' ∉ a₁) (h₂ : '_' ∉ a₂)
    (he : a₁ ++ '_' :: b₁ = a₂ ++ '_' :: b₂) : a₁ = a₂ ∧ b₁ = b₂ := by
  induction a₁ generalizing a₂ with
  | nil =>
    cases a₂ with
    | nil => simpa using he
    | cons x xs =>
      simp only [List.nil_append, List.cons_append, List.cons.injEq] at he
      exact absurd (he.1 ▸ List.mem_cons_self x xs) (he.1 ▸ h₂)
  | cons c cs ih =>
    cases a₂ with
    | nil =>
      simp only [List.nil_append, List.cons_append, List.cons.injEq] at he
      exact absurd (List.mem_cons_self c cs) (he.1 ▸ h₁)
    | cons x xs =>
      simp only [List.cons_append, List.cons.injEq] at he
      obtain ⟨rfl, he2⟩ := he
      have := ih (fun hm => h₁ (List.mem_cons_of_mem _ hm))
        (fun hm => h₂ (List.mem_cons_of_mem _ hm)) he2
      exact ⟨by rw [this.1], this.2⟩

/-- C8 amended: the derivation is injective on the keys the platform
actually produces — channel ids without an underscore and timestamps
without a hyphen (Slack channel ids are alphanumeric and timestamps are
`digits.digits`).  On arbitrary keys it collides, as the counterexample
shows. -/
theorem messageFileName_injective_on_platform_keys
    (c₁ t₁ c₂ t₂ : String)
    (hc₁ : '_' ∉ c₁.data) (hc₂ : '_' ∉ c₂.data)
    (ht₁ : '-' ∉ t₁.data) (ht₂ : '-' ∉ t₂.data)
    (he : messageFileName c₁ t₁ = messageFileName c₂ t₂) :
    c₁ = c₂ ∧ t₁ = t₂ := by
  have hd : c₁.data ++ '_' :: (replaceFirstChar '.' '-' t₁.data ++ ".json".data) =
      c₂.data ++ '_' :: (replaceFirstChar '.' '-' t₂.data ++ ".json".data) := by
    have := congrArg String.data he
    simpa [messageFileName, String.data_append] using this
  obtain ⟨hcd, hrest⟩ := underscore_split hc₁ hc₂ hd
  have htd : replaceFirstChar '.' '-' t₁.data = replaceFirstChar '.' '-' t₂.data :=
    List.append_cancel_right hrest
  have ht : t₁.data = t₂.data := by
    have := congrArg (replaceFirstChar '-' '.') htd
    rwa [replaceFirstChar_cancel ht₁, replaceFirstChar_cancel ht₂] at this
  exact ⟨congrArg String.mk hcd, congrArg String.mk ht⟩

theorem messageFileName_injective_witness :
    ('_' ∉ ("C0AHAGEQY8Y" : String).data) ∧ ('_' ∉ ("C0AHAGEQY8Z" : String).data) ∧
    ('-' ∉ ("1759688806.116349" : String).data) ∧ ('-' ∉ ("1759688807.0" : String).data) ∧
    (messageFileName "C0AHAGEQY8Y" "1759688806.116349" =
        messageFileName "C0AHAGEQY8Z" "1759688807.0" →
      ("C0AHAGEQY8Y" : String) = "C0AHAGEQY8Z" ∧
      ("1759688806.116349" : String) = "1759688807.0") := by
  refine ⟨by decide, by decide, by decide, by decide, ?_⟩
  exact messageFileName_injective_on_platform_keys _ _ _ _
    (by decide) (by decide) (by decide) (by decide)

/-- C2 counterexample: a `message_deleted` event for a message that is
already processing does remove its durable record.  The handler calls
`dequeue` unconditionally, without consulting `processingMessages`, so the
record vanishes from the queue directory while the key is still in the
processing set — contradicting the claim that the deletion has no effect on
the durable queue. -/
theorem message_deleted_while_processing_removes_record :
    (onMessageDeleted
        (beginProcessing
          { queue := enqueueQ ⟨"C", "U", "hi", "1", "1", "t"⟩ [], processing := [] }
          "C" "1")
        "C" "1").queue = [] ∧
    (beginProcessing
        { queue := enqueueQ ⟨"C", "U", "hi", "1", "1", "t"⟩ [], processing := [] }
        "C" "1").queue ≠ [] ∧
    (beginProcessing
        { queue := enqueueQ ⟨"C", "U", "hi", "1", "1", "t"⟩ [], processing := [] }
        "C" "1").processing = [processingKey "C" "1"] := by
  refine ⟨by decide, by decide, rfl⟩

theorem any_filter_ne (q : QueueDir) (f : String) :
    ((q.filter (fun kv => kv.1 ≠ f)).any (fun kv => kv.1 = f)) = false := by
  induction q with
  | nil => rfl
  | cons kv rest ih =>
    by_cases h : kv.1 = f
    · simp [List.filter, h, ih]
    · simp [List.filter, h, ih]

/-- C2 amended: the `message_deleted` branch removes the durable record for
the deleted ts unconditionally — whether the message is pending or already
processing — and leaves the processing set untouched; the post-turn
`dequeue` for that key subsequently returns false.  (Only the
`message_changed` branch consults `processingMessages`.) -/
theorem message_deleted_removes_unconditionally (st : SchedState)
    (channel deletedTs : String) :
    (onMessageDeleted st channel deletedTs).queue =
      st.queue.filter (fun kv => kv.1 ≠ messageFileName channel deletedTs) ∧
    (dequeueQ channel deletedTs (onMessageDeleted st channel deletedTs).queue).1 = false ∧
    (onMessageDeleted st channel deletedTs).processing = st.processing :=
  ⟨rfl, any_filter_ne st.queue (messageFileName channel deletedTs), rfl⟩

/-- C10: `splitMessage` of the empty string is the empty list, not a
singleton holding the empty string — so a finished turn with empty final
text (after markup conversion) posts zero chunk messages — and every
non-empty input yields at least one chunk. -/
theorem splitMessage_empty_and_nonempty :
    splitMessage "" = [] ∧
    splitMessage (markdownToSlackMrkdwn "") = [] ∧
    ∀ s : String, s ≠ "" → splitMessage s ≠ [] := by
  refine ⟨by decide, by decide, ?_⟩
  intro s hs
  match hm : s.data with
  | [] => exact absurd (congrArg String.mk hm) hs
  | c :: rest =>
    unfold splitMessage
    rw [hm]
    simp only [List.length_cons]
    rw [splitChunks]
    split <;> simp

theorem splitMessage_nonempty_witness :
    ("a" : String) ≠ "" ∧ splitMessage "a" ≠ [] :=
  ⟨by decide, splitMessage_empty_and_nonempty.2.2 "a" (by decide)⟩

theorem persistentCycle {s : SlotState} (hr : SlotReach s) (hh : s.handoff = 0)
    (ha : s.active < MAX_CONCURRENT_PROCESSES) (hw : s.waiters = 0) :
    SlotReach { s with persistentLive := s.persistentLive + 1 } := by
  have h1 := hr.step (SlotStep.acquireFast s hh ha)
  have h2 := h1.step (SlotStep.persTurnNew _ (by simp))
  have h3 := h2.step (SlotStep.persTurnEnd _ (by simp))
  have h4 := h3.step (SlotStep.releaseFree _ (by simp) (by simp [hw]))
  have heq :
      ({ active := s.active + 1 - 1, waiters := s.waiters,
         handoff := s.handoff, hIdle := s.hIdle + 1 - 1 + 1 - 1,
         hRun := s.hRun, persRun := s.persRun + 1 - 1,
         persistentLive := s.persistentLive + 1 } : SlotState) =
      { s with persistentLive := s.persistentLive + 1 } := by
    cases s
    simp only [SlotState.mk.injEq, Nat.add_sub_cancel]
  exact heq ▸ h4

/-- C1 counterexample: nine entries across the two registries are reachable,
violating the claimed bound of MAX_CONCURRENT_PROCESSES = 8.  Nine
persistent-mode channels each process one message strictly in sequence
(never more than one slot held at a time); every turn leaves its persistent
registry entry alive after releasing its slot, so after the ninth turn the
registries hold nine live Agent processes.  The claimed equivalence between
registry entries and acquired slots fails for idle persistent entries. -/
theorem nine_registry_entries_reachable :
    SlotReach { active := 0, waiters := 0, handoff := 0, hIdle := 0, hRun := 0,
                persRun := 0, persistentLive := 9 } ∧
    MAX_CONCURRENT_PROCESSES <
      registrySize { active := 0, waiters := 0, handoff := 0, hIdle := 0, hRun := 0,
                     persRun := 0, persistentLive := 9 } := by
  refine ⟨?_, by decide⟩
  have h0 : SlotReach slotInit := SlotReach.init
  have h1 := persistentCycle h0 rfl (by decide) rfl
  have h2 := persistentCycle h1 rfl (by decide) rfl
  have h3 := persistentCycle h2 rfl (by decide) rfl
  have h4 := persistentCycle h3 rfl (by decide) rfl
  have h5 := persistentCycle h4 rfl (by decide) rfl
  have h6 := persistentCycle h5 rfl (by decide) rfl
  have h7 := persistentCycle h6 rfl (by decide) rfl
  have h8 := persistentCycle h7 rfl (by decide) rfl
  have h9 := persistentCycle h8 rfl (by decide) rfl
  exact h9

/-- C1 amended: what the slot mechanism does guarantee, for every
event-loop-permitted interleaving including the release-to-increment handoff
window: the number of acquired slots (turns in flight, counting resumed
waiters that have not yet incremented the counter) never exceeds
MAX_CONCURRENT_PROCESSES = 8, and the `activeProcesses` counter always
equals the number of slot-holding turns; hence oneshot registry entries
(each owned by a slot-holding turn) are bounded by 8.  The combined registry
size is not so bounded: idle persistent entries survive slot release, as the
counterexample shows. -/
theorem slot_cap_invariant (s : SlotState) (hr : SlotReach s) :
    s.active + s.handoff ≤ MAX_CONCURRENT_PROCESSES ∧
    s.active = s.hIdle + s.hRun + s.persRun ∧
    s.hRun ≤ MAX_CONCURRENT_PROCESSES := by
  have main : s.active + s.handoff ≤ MAX_CONCURRENT_PROCESSES ∧
      s.active = s.hIdle + s.hRun + s.persRun := by
    induction hr with
    | init => simp [slotInit]
    | step hr hstep ih =>
      cases hstep <;> simp_all [MAX_CONCURRENT_PROCESSES] <;> omega
  exact ⟨main.1, main.2, by omega⟩

theorem slot_cap_invariant_witness :
    slotInit.active + slotInit.handoff ≤ MAX_CONCURRENT_PROCESSES ∧
    slotInit.active = slotInit.hIdle + slotInit.hRun + slotInit.persRun ∧
    slotInit.hRun ≤ MAX_CONCURRENT_PROCESSES :=
  slot_cap_invariant slotInit SlotReach.init

theorem oneshot_entries_constant {r : OneshotRegistry} (h : RegReach r) :
    ∀ kv ∈ r, kv.2.messageCount = 1 ∧ kv.2.totalCost = 0 ∧ kv.2.totalTokens = 0 := by
  induction h with
  | init => intro kv hkv; cases hkv
  | step hr hstep ih =>
    cases hstep with
    | spawn ch sess msg =>
      intro kv hkv
      rcases List.mem_cons.mp hkv with hhd | htl
      · subst hhd; exact ⟨rfl, rfl, rfl⟩
      · exact ih kv (List.mem_filter.mp htl).1
    | close ch =>
      intro kv hkv
      exact ih kv (List.mem_filter.mp hkv).1

/-- C9: every reachable oneshot registry content keeps the spawn-time
literals `messageCount = 1, totalCost = 0, totalTokens = 0` — no statement
in the source ever adds a Result cost or token count into an oneshot entry —
and the oneshot rows of the `getActiveProcesses` snapshot (its first
`r.length` rows) therefore always report `isActive = true`, zero cost and
zero tokens, whatever the persistent registry holds. -/
theorem oneshot_snapshot_constant (r : OneshotRegistry)
    (pers : List PersistentEntryM) (hr : RegReach r) :
    ∀ p ∈ (getActiveProcesses r pers).take r.length,
      p.messageCount = 1 ∧ p.totalCost = 0 ∧ p.totalTokens = 0 ∧ p.isActive = true := by
  intro p hp
  have hlen : (r.map (fun kv =>
      ({ channelId := kv.2.channelId, sessionId := kv.2.sessionId,
         message := kv.2.message, messageCount := kv.2.messageCount,
         totalCost := kv.2.totalCost, totalTokens := kv.2.totalTokens,
         isActive := true } : ProcessInfo))).length = r.length := by
    simp
  rw [getActiveProcesses, List.take_left' hlen] at hp
  obtain ⟨kv, hkv, rfl⟩ := List.mem_map.mp hp
  have := oneshot_entries_constant hr kv hkv
  exact ⟨this.1, this.2.1, this.2.2, rfl⟩

theorem oneshot_snapshot_constant_witness :
    ({ channelId := "C1", sessionId := "S", message := "hi", messageCount := 1,
       totalCost := 0, totalTokens := 0, isActive := true } : ProcessInfo).messageCount = 1 ∧
    ({ channelId := "C1", sessionId := "S", message := "hi", messageCount := 1,
       totalCost := 0, totalTokens := 0, isActive := true } : ProcessInfo).totalCost = 0 ∧
    ({ channelId := "C1", sessionId := "S", message := "hi", messageCount := 1,
       totalCost := 0, totalTokens := 0, isActive := true } : ProcessInfo).totalTokens = 0 ∧
    ({ channelId := "C1", sessionId := "S", message := "hi", messageCount := 1,
       totalCost := 0, totalTokens := 0, isActive := true } : ProcessInfo).isActive = true :=
  oneshot_snapshot_constant
    (registrySet "C1" (initialOneshotEntry "C1" "S" "hi") []) []
    (RegReach.step RegReach.init (RegStep.spawn [] "C1" "S" "hi"))
    { channelId := "C1", sessionId := "S", message := "hi", messageCount := 1,
      totalCost := 0, totalTokens := 0, isActive := true }
    (by decide)

/-- C5 counterexample: on a partial streaming buffer holding an opening
fence that is not yet closed, the translator does not leave the fenced
interior byte-identical.  The code-block regex only matches closed fences,
so the unclosed region runs through `convertMarkdownText`, which rewrites
the interior `a<b` to `a&lt;b`. -/
theorem unclosed_fence_interior_mangled :
    markdownToSlackMrkdwn "```\na<b\n" = "```\na&lt;b\n" ∧
    markdownToSlackMrkdwn "```\na<b\n" ≠ "```\na<b\n" := by
  constructor <;> decide

theorem collect_mem (tag body : List Char) (segs : List MdSeg)
    (h : (tag, body) ∈ segs.foldr
      (fun seg acc =>
        match seg with
        | .gap _ => acc
        | .code t b => (t, b) :: acc) []) :
    MdSeg.code tag body ∈ segs := by
  induction segs with
  | nil => cases h
  | cons sg rest ih =>
    cases sg with
    | gap g => exact List.mem_cons_of_mem _ (ih h)
    | code t b =>
      rcases List.mem_cons.mp h with h1 | h2
      · simp only [Prod.mk.injEq] at h1
        obtain ⟨rfl, rfl⟩ := h1
        exact List.mem_cons_self _ _
      · exact List.mem_cons_of_mem _ (ih h2)

/-- C5 amended: the interior of every closed fenced code block is preserved
byte-identically — for each block the fence-splitting loop finds, the output
contains the block with only its language tag stripped, the body unchanged.
Unclosed fences (partial streaming buffers) are not protected: their
interior is subject to the markdown conversions, as the counterexample
shows. -/
theorem fenced_interior_preserved (s : String) (tag body : List Char)
    (h : (tag, body) ∈ fencedBlocks s) :
    ("```\n".data ++ (body ++ "```".data)) <:+: (markdownToSlackMrkdwn s).data := by
  rw [fencedBlocks] at h
  have hmem : MdSeg.code tag body ∈ scanFences (s.data.length + 1) [] s.data :=
    collect_mem tag body _ h
  have hmap : renderSeg (MdSeg.code tag body) ∈
      (scanFences (s.data.length + 1) [] s.data).map renderSeg :=
    List.mem_map_of_mem renderSeg hmem
  have hinf := List.infix_of_mem_flatten hmap
  simpa [renderSeg, markdownToSlackMrkdwn] using hinf

theorem fenced_interior_preserved_witness :
    (("js".data, "code\n".data) ∈ fencedBlocks "```js\ncode\n```") ∧
    ("```\n".data ++ ("code\n".data ++ "```".data)) <:+:
      (markdownToSlackMrkdwn "```js\ncode\n```").data :=
  ⟨by decide, fenced_interior_preserved "```js\ncode\n```" "js".data "code\n".data (by decide)⟩

theorem makeFreshArgs_get (args : List String) (sid : String) (i : Nat) :
    (makeFreshArgs args sid)[i]? =
      (args[i]?).map (fun a =>
        if a = "--resume" ∧ args[i + 1]? = some sid then "--session-id" else a) := by
  induction args generalizing i with
  | nil => simp [makeFreshArgs]
  | cons a rest ih =>
    cases rest with
    | nil =>
      cases i with
      | zero => simp [makeFreshArgs]
      | succ j => simp [makeFreshArgs]
    | cons b rest2 =>
      cases i with
      | zero =>
        by_cases h1 : a = "--resume" <;> by_cases h2 : b = sid <;>
          simp [makeFreshArgs, h1, h2]
      | succ j =>
        simpa [makeFreshArgs] using ih j

/-- C6: the oneshot retry logic.  A successful first run spawns once; an
error whose message does not contain "already in use" propagates with no
retry and no artifact clearing; an error containing "already in use" clears
the session artifacts and retries exactly once, the retried argument list
being `makeFreshArgs`, whose i-th element is `--session-id` exactly where
the original had `--resume` followed by the session id and is unchanged
elsewhere; the outcome of the retried call — success or second failure —
propagates as is, and no call ever spawns more than twice. -/
theorem runClaude_collision_retry (oracle : Nat → Except String ClaudeResultM)
    (args : List String) (sessionId : String) :
    (∀ r, oracle 0 = .ok r →
      runClaudeRetry oracle args sessionId =
        { attempts := [args], cleared := false, outcome := .ok r }) ∧
    (∀ e, oracle 0 = .error e → strContains e "already in use" = false →
      runClaudeRetry oracle args sessionId =
        { attempts := [args], cleared := false, outcome := .error e }) ∧
    (∀ e, oracle 0 = .error e → strContains e "already in use" = true →
      runClaudeRetry oracle args sessionId =
        { attempts := [args, makeFreshArgs args sessionId], cleared := true,
          outcome := oracle 1 }) ∧
    (runClaudeRetry oracle args sessionId).attempts.length ≤ 2 ∧
    (∀ i, (makeFreshArgs args sessionId)[i]? =
      (args[i]?).map (fun a =>
        if a = "--resume" ∧ args[i + 1]? = some sessionId then "--session-id" else a)) := by
  refine ⟨?_, ?_, ?_, ?_, makeFreshArgs_get args sessionId⟩
  · intro r h
    simp [runClaudeRetry, h]
  · intro e h he
    simp [runClaudeRetry, h, he]
  · intro e h he
    cases h1 : oracle 1 <;> simp [runClaudeRetry, h, he, h1]
  · cases h0 : oracle 0 with
    | ok r => simp [runClaudeRetry, h0]
    | error e =>
      by_cases he : strContains e "already in use" = true
      · cases h1 : oracle 1 <;> simp [runClaudeRetry, h0, he, h1]
      · simp only [Bool.not_eq_true] at he
        simp [runClaudeRetry, h0, he]

theorem runClaude_collision_retry_witness :
    runClaudeRetry
        (fun k => if k = 0
          then .error "Claude exited with code 1: Session S is already in use"
          else .ok { response := "done", sessionId := none, cost := none, tokens := none })
        ["--resume", "S"] "S" =
      { attempts := [["--resume", "S"], ["--session-id", "S"]], cleared := true,
        outcome := .ok { response := "done", sessionId := none, cost := none,
                         tokens := none } } ∧
    makeFreshArgs ["--resume", "S"] "S" = ["--session-id", "S"] := by
  have h := (runClaude_collision_retry
      (fun k => if k = 0
        then .error "Claude exited with code 1: Session S is already in use"
        else .ok { response := "done", sessionId := none, cost := none, tokens := none })
      ["--resume", "S"] "S").2.2.1
    "Claude exited with code 1: Session S is already in use" rfl (by decide)
  exact ⟨h.trans (by decide), by decide⟩

theorem fieldIs_unique {v : JVal} {f a b : String}
    (ha : fieldIs v f a = true) (hb : fieldIs v f b = true) : a = b := by
  unfold fieldIs at ha hb
  cases hv : v.field f with
  | none => rw [hv] at ha; simp at ha
  | some w =>
    rw [hv] at ha hb
    cases w <;> simp_all

theorem deltaMatch_eq_true_iff (v : JVal) :
    deltaMatch v = true ↔ (fieldIs v "type" "stream_event" = true ∧ specDeltaShape v) := by
  unfold deltaMatch specDeltaShape
  constructor
  · intro h
    rw [Bool.and_eq_true] at h
    obtain ⟨h1, h2⟩ := h
    refine ⟨h1, ?_⟩
    cases hv : v.field "event" with
    | none => rw [hv] at h2; simp at h2
    | some ev =>
      rw [hv] at h2
      rw [Bool.and_eq_true] at h2
      obtain ⟨h3, h4⟩ := h2
      cases hd : ev.field "delta" with
      | none => rw [hd] at h4; simp at h4
      | some d =>
        rw [hd] at h4
        rw [Bool.and_eq_true] at h4
        obtain ⟨h5, h6⟩ := h4
        cases ht : d.field "text" with
        | none => rw [ht] at h6; simp at h6
        | some t =>
          rw [ht] at h6
          exact ⟨ev, rfl, h3, d, hd, h5, t, ht, h6⟩
  · rintro ⟨h1, ev, hev, h3, d, hd, h5, t, ht, h6⟩
    simp [h1, hev, hd, ht, h3, h5, h6]

/-- C3: the parser is a total function — the embedding returns a value on
every line, never throwing — and it returns null exactly under the
conditions of the claim: a whitespace-only line (including the empty line),
a line `JSON.parse` rejects, a parsed value whose top-level type is none of
`stream_event`, `result`, `user`, or a `stream_event` envelope whose inner
shape does not match the `content_block_delta`/`text_delta` pattern with a
truthy (for strings: non-empty) `text`. -/
theorem parseStreamLine_null_iff (jp : String → Option JVal) (L : String) :
    parseStreamLine jp L = none ↔ returnsNullSpec jp L := by
  unfold parseStreamLine returnsNullSpec
  by_cases hw : allWhite L = true
  · simp [hw]
  · cases hj : jp L with
    | none => simp [hj, hw]
    | some v =>
      by_cases hdm : deltaMatch v = true
      · have hse := (deltaMatch_eq_true_iff v).mp hdm
        simp [hj, hw, hdm, hse.1, hse.2]
      · simp only [Bool.not_eq_true] at hdm
        by_cases hres : fieldIs v "type" "result" = true
        · have hnstream : fieldIs v "type" "stream_event" = false := by
            by_contra hc
            simp only [Bool.not_eq_false] at hc
            exact absurd (fieldIs_unique hc hres) (by decide)
          simp [hj, hw, hdm, hres, hnstream]
        · by_cases huser : fieldIs v "type" "user" = true
          · have hnstream : fieldIs v "type" "stream_event" = false := by
              by_contra hc
              simp only [Bool.not_eq_false] at hc
              exact absurd (fieldIs_unique hc huser) (by decide)
            simp [hj, hw, hdm, hres, huser, hnstream]
          · simp only [Bool.not_eq_true] at hres huser
            by_cases hstream : fieldIs v "type" "stream_event" = true
            · have hnspec : ¬ specDeltaShape v := fun hs =>
                absurd ((deltaMatch_eq_true_iff v).mpr ⟨hstream, hs⟩) (by simp [hdm])
              simp [hj, hw, hdm, hres, huser, hstream, hnspec]
            · simp only [Bool.not_eq_true] at hstream
              simp [hj, hw, hdm, hres, huser, hstream]

theorem coalesce_num {x : Option JVal} {n : Int} (h : numOrMissing x n) :
    coalesce x (.num 0) = .num n := by
  rcases h with h | ⟨h1, rfl⟩
  · rw [h]; rfl
  · cases x with
    | none => rfl
    | some w => cases w <;> simp_all [nullish, coalesce]

theorem resultTokens_of_usage {v u : JVal} (hu : v.field "usage" = some u)
    (hnn : u ≠ .null) :
    resultTokens v = jsAdd (coalesce (u.field "input_tokens") (.num 0))
      (coalesce (u.field "output_tokens") (.num 0)) := by
  unfold resultTokens
  rw [hu]
  cases u with
  | null => exact absurd rfl hnn
  | bool b => rfl
  | num n => rfl
  | str s => rfl
  | arr xs => rfl
  | obj kvs => rfl

/-- C7: for every parsed record of top-level type `result` the parser emits
a result event whose tokens field is the sum of `usage.input_tokens` and
`usage.output_tokens` with missing (absent or null) summands counted as 0
when `usage` is present and non-null, and is null when `usage` is absent or
null; its cost field is `cost_usd` when that is present and non-null, else
`total_cost_usd` when that is present and non-null, else null. -/
theorem parseStreamLine_result_fields (jp : String → Option JVal) (L : String)
    (v : JVal) (hj : jp L = some v) (hw : allWhite L = false)
    (hres : fieldIs v "type" "result" = true) :
    parseStreamLine jp L =
      some (.result (coalesce (v.field "result") (.str ""))
                    (coalesce (v.field "session_id") .null)
                    (coalesce (v.field "cost_usd")
                      (coalesce (v.field "total_cost_usd") .null))
                    (resultTokens v)) ∧
    (nullish (v.field "usage") = true → resultTokens v = .null) ∧
    (∀ u i o, v.field "usage" = some u → u ≠ .null →
      numOrMissing (u.field "input_tokens") i →
      numOrMissing (u.field "output_tokens") o →
      resultTokens v = .num (i + o)) ∧
    (∀ c, v.field "cost_usd" = some c → c ≠ .null →
      coalesce (v.field "cost_usd") (coalesce (v.field "total_cost_usd") .null) = c) ∧
    (nullish (v.field "cost_usd") = true →
      ∀ c, v.field "total_cost_usd" = some c → c ≠ .null →
        coalesce (v.field "cost_usd") (coalesce (v.field "total_cost_usd") .null) = c) ∧
    (nullish (v.field "cost_usd") = true → nullish (v.field "total_cost_usd") = true →
      coalesce (v.field "cost_usd") (coalesce (v.field "total_cost_usd") .null) = .null) := by
  have hdm : deltaMatch v = false := by
    by_contra h
    simp only [Bool.not_eq_false] at h
    exact absurd (fieldIs_unique ((deltaMatch_eq_true_iff v).mp h).1 hres) (by decide)
  refine ⟨?_, ?_, ?_, ?_, ?_, ?_⟩
  · simp [parseStreamLine, hw, hj, hdm, hres]
  · intro hnu
    unfold resultTokens
    cases hu : v.field "usage" with
    | none => rfl
    | some u => cases u <;> simp_all [nullish]
  · intro u i o hu hnn hi ho
    rw [resultTokens_of_usage hu hnn, coalesce_num hi, coalesce_num ho]
    rfl
  · intro c hc hnn
    rw [hc]
    cases c with
    | null => exact absurd rfl hnn
    | bool b => rfl
    | num n => rfl
    | str s => rfl
    | arr xs => rfl
    | obj kvs => rfl
  · intro hnc c hc hnn
    have h1 : coalesce (v.field "cost_usd") (coalesce (v.field "total_cost_usd") .null) =
        coalesce (v.field "total_cost_usd") .null := by
      cases hx : v.field "cost_usd" with
      | none => rfl
      | some w => cases w <;> simp_all [nullish, coalesce]
    rw [h1, hc]
    cases c with
    | null => exact absurd rfl hnn
    | bool b => rfl
    | num n => rfl
    | str s => rfl
    | arr xs => rfl
    | obj kvs => rfl
  · intro hnc hnt
    have h1 : coalesce (v.field "cost_usd") (coalesce (v.field "total_cost_usd") .null) =
        coalesce (v.field "total_cost_usd") .null := by
      cases hx : v.field "cost_usd" with
      | none => rfl
      | some w => cases w <;> simp_all [nullish, coalesce]
    rw [h1]
    cases hx : v.field "total_cost_usd" with
    | none => rfl
    | some w => cases w <;> simp_all [nullish, coalesce]

theorem parseStreamLine_result_fields_witness :
    parseStreamLine (fun _ => some wResultObj) "x" =
      some (.result (.str "") .null (.num 1) (.num 7)) ∧
    resultTokens wResultObj = .num 7 := by
  have h := parseStreamLine_result_fields (fun _ => some wResultObj) "x" wResultObj
    rfl (by decide) rfl
  refine ⟨h.1, ?_⟩
  have h3 := h.2.2.1 (.obj [("input_tokens", .num 3), ("output_tokens", .num 4)]) 3 4
    rfl (fun hc => JVal.noConfusion hc) (Or.inl rfl) (Or.inl rfl)
  exact h3

end Claudeway
